import Mathlib

/-!
Verification of the SCJN case-file analysis pipeline.

This file gives a shallow embedding, in Lean 4, of the core logic of the
repository (batch coordinator with resumable audit log, quote splitters,
milestone consolidator, schema validators with auto-truncation, and the
checkpointed section pipeline), together with theorems settling the frozen
claims C1 - C10 about that logic.

Conventions of the embedding:
- Python strings are modelled as `List Char`; `str.split()` is modelled by
  `pyWords` (split on runs of ASCII whitespace, dropping empties).
- Fallible code (exceptions) is modelled with `Option` / `Except`.
- The external document-understanding service is an oracle parameter
  (`String → Option Nat`, `String → Except String Nat`): its result per
  document / section, with the consumed token count on success.
- Timestamps, log messages and file-system paths that do not influence the
  claimed properties are omitted from the state.
-/

set_option maxRecDepth 100000

namespace SCJN

/-! ## Quote splitting (src/core/models.py `partir_cita_larga`,
src/proyecto_sentencia/models_extraccion.py `PuntoAnalisis._partir_en_chunks`) -/

/-- ASCII whitespace recognised by Python `str.split()`. -/
def pyIsSpace (c : Char) : Bool :=
  c = ' ' || c = '\t' || c = '\n' || c = '\r' || c = '\x0b' || c = '\x0c'

/-- Accumulator version of `str.split()`: `cur` is the word being read. -/
def pyWordsAux (cur : List Char) : List Char → List (List Char)
  | [] => if cur = [] then [] else [cur]
  | c :: cs =>
    if pyIsSpace c then
      if cur = [] then pyWordsAux [] cs else cur :: pyWordsAux [] cs
    else pyWordsAux (cur ++ [c]) cs

/-- `texto.split()`: whitespace-delimited words, empties dropped. -/
def pyWords (l : List Char) : List (List Char) :=
  pyWordsAux [] l

/-- Join a list of fragments with single spaces (`" ".join(...)`). -/
def unwords : List (List Char) → List Char
  | [] => []
  | [w] => w
  | w :: ws => w ++ ' ' :: unwords ws

/-- Whitespace normalization of a text: split into words, re-join with
single spaces. -/
def normalizar (s : List Char) : List Char :=
  unwords (pyWords s)

/-- The shared greedy word-packing loop of both quote splitters
(`for palabra in palabras: ...` in `partir_cita_larga` and
`_partir_en_chunks`); `fragmentoActual` is the chunk being built. -/
def chunkLoop (maxChars : Nat) (fragmentoActual : List Char) :
    List (List Char) → List (List Char)
  | [] => if fragmentoActual = [] then [] else [fragmentoActual]
  | palabra :: palabras =>
    let nuevo := if fragmentoActual = [] then palabra
                 else fragmentoActual ++ ' ' :: palabra
    if nuevo.length ≤ maxChars then
      chunkLoop maxChars nuevo palabras
    else
      if fragmentoActual = [] then
        -- caso edge: palabra individual muy larga -> `palabra[:max_chars]`
        palabra.take maxChars :: chunkLoop maxChars [] palabras
      else
        fragmentoActual :: chunkLoop maxChars palabra palabras

/-- `PuntoAnalisis._partir_en_chunks(texto, max_chars)`: uncapped variant
(called with `max_chars = 450`). -/
def partir_en_chunks (texto : List Char) (maxChars : Nat) : List (List Char) :=
  if texto.length ≤ maxChars then [texto]
  else chunkLoop maxChars [] (pyWords texto)

/-- `partir_cita_larga(cita_texto, max_chars)`: variant capped at 5
fragments by `fragmentos[:5]` (called with `max_chars = 950`). -/
def partir_cita_larga (citaTexto : List Char) (maxChars : Nat) : List (List Char) :=
  if citaTexto.length ≤ maxChars then [citaTexto]
  else (chunkLoop maxChars [] (pyWords citaTexto)).take 5

/-! ## Audit log and batch coordinator (src/main.py `SCJNAnalyzer`).

A `BitacoraEntry` keeps only the fields that the resume and completeness
logic reads (`documento`, `status`); timestamp, message and metadata are
inert payload for these claims. -/

structure BitacoraEntry where
  documento : String
  status : String
deriving DecidableEq

/-- Names of the documents with a `success` entry
(`docs_procesados_exitosamente` in `analizar_estado_expediente`,
`docs_exitosos` in `_verificar_expediente_completo`). -/
def docsProcesadosExitosamente (bitacora : List BitacoraEntry) : List String :=
  (bitacora.filter (fun e => e.status = "success")).map (fun e => e.documento)

/-- `analizar_estado_expediente`: the pending documents of a run — the
available documents minus those with a `success` entry. When no audit log
exists every available document is pending. -/
def analizar_estado_expediente (disponibles : List String)
    (bitacora : List BitacoraEntry) : List String :=
  if bitacora = [] then disponibles
  else disponibles.filter (fun d => d ∉ docsProcesadosExitosamente bitacora)

/-- `_verificar_expediente_completo`: the available document names are a
subset of the successfully processed ones. -/
def verificar_expediente_completo (disponibles : List String)
    (bitacora : List BitacoraEntry) : Bool :=
  disponibles.all (fun d => d ∈ docsProcesadosExitosamente bitacora)

/-- Outcome of one `procesar_expediente_completo` run. `llamadasServicio`
lists the documents sent to the external service (one entry per processed
document; retries only repeat a document already listed). -/
structure ResultadoCorrida where
  bitacoraFinal : List BitacoraEntry
  llamadasServicio : List String
  expedienteCompleto : Bool
deriving DecidableEq

/-- One `procesar_documento_con_timeout` outcome as a log entry: the
oracle `resultado` gives the token count on success, `none` on terminal
failure after retries. -/
def entradaDeDocumento (resultado : String → Option Nat) (d : String) :
    BitacoraEntry :=
  match resultado d with
  | some _ => ⟨d, "success"⟩
  | none => ⟨d, "error"⟩

/-- `procesar_expediente_completo` (uninterrupted run): compute the pending
set, process each pending document appending its entry to the audit log,
then run the completeness check. With an empty pending set this
short-circuits: no document is processed, no service call is made, and the
audit log is returned as loaded. -/
def procesar_expediente_completo (resultado : String → Option Nat)
    (disponibles : List String) (bitacora : List BitacoraEntry) :
    ResultadoCorrida :=
  let pendientes := analizar_estado_expediente disponibles bitacora
  let bitacoraFinal :=
    pendientes.foldl (fun b d => b ++ [entradaDeDocumento resultado d]) bitacora
  ⟨bitacoraFinal, pendientes,
    verificar_expediente_completo disponibles bitacoraFinal⟩

/-! ## Milestone consolidator (src/proyecto_sentencia/orquestador.py).

A `HitoCrudo` is one loaded `*_mapeado.json` dict. Each field is an
`Option`: `none` models a missing key, resolved by the `.get(...)`
defaults of `clave_ordenamiento` and of the principal-docket lookup.
`fecha_resolucion` is kept as an already parsed `(year, month, day)`
triple; Python `date` comparison is lexicographic on it. -/

structure HitoCrudo where
  etapa : Option String
  fecha : Option (Nat × Nat × Nat)
  expedientes : Option (List String)
deriving DecidableEq

/-- The fixed procedural-stage ranking table of
`crear_contexto_del_caso_robusto`. -/
def ORDEN_ETAPAS : List (String × Nat) :=
  [("Juicio de Origen", 1),
   ("Recurso de Apelación", 2),
   ("Demanda de Amparo", 3),
   ("Sentencia de Amparo Directo", 4),
   ("Recurso de Revisión", 5),
   ("Acuerdo de Admisión de Revisión", 6),
   ("Avocamiento", 7)]

/-- `clave_ordenamiento(documento)`: `(stage rank, resolution date)`, with
rank 99 for any stage missing from `ORDEN_ETAPAS`. -/
def clave_ordenamiento (d : HitoCrudo) : Nat × (Nat × Nat × Nat) :=
  let etapa := d.etapa.getD "ETAPA_DESCONOCIDA"
  let fecha := d.fecha.getD (1900, 1, 1)
  let orden := match ORDEN_ETAPAS.lookup etapa with
    | some o => o
    | none => 99
  (orden, fecha)

/-- Lexicographic order on `(year, month, day)` dates (Python `date` order). -/
def fechaLe (a b : Nat × Nat × Nat) : Bool :=
  a.1 < b.1 || (a.1 = b.1 && (a.2.1 < b.2.1 ||
    (a.2.1 = b.2.1 && a.2.2 ≤ b.2.2)))

/-- Lexicographic order on sort keys `(rank, date)`, the tuple comparison
used by `hitos_procesales.sort(key=clave_ordenamiento)`. -/
def parClaveLe (x y : Nat × (Nat × Nat × Nat)) : Bool :=
  x.1 < y.1 || (x.1 = y.1 && fechaLe x.2 y.2)

def claveLe (a b : HitoCrudo) : Bool :=
  parClaveLe (clave_ordenamiento a) (clave_ordenamiento b)

instance decRelClaveLe :
    DecidableRel (fun a b : HitoCrudo => claveLe a b = true) :=
  fun _ _ => inferInstance

instance : IsTrans HitoCrudo (fun a b : HitoCrudo => claveLe a b = true) where
  trans a b c hab hbc := by
    simp only [claveLe, parClaveLe, fechaLe, Bool.or_eq_true, Bool.and_eq_true,
      decide_eq_true_eq] at hab hbc ⊢
    omega

instance : IsTotal HitoCrudo (fun a b : HitoCrudo => claveLe a b = true) where
  total a b := by
    simp only [claveLe, parClaveLe, fechaLe, Bool.or_eq_true, Bool.and_eq_true,
      decide_eq_true_eq]
    omega

/-- `hitos_procesales.sort(key=clave_ordenamiento)`: Python list sort is a
stable sort by the key, modelled by insertion sort over `claveLe`. -/
def ordenar_hitos (hitos : List HitoCrudo) : List HitoCrudo :=
  List.insertionSort (fun a b => claveLe a b = true) hitos

/-- A stage tag is recognised when it is a key of `ORDEN_ETAPAS`. -/
def etapaConocida (d : HitoCrudo) : Bool :=
  (ORDEN_ETAPAS.lookup (d.etapa.getD "ETAPA_DESCONOCIDA")).isSome

/-- The consolidated case context (`contexto_final` metadata plus the
sorted milestones; the generation timestamp is omitted). -/
structure ContextoCaso where
  id_caso : String
  expediente_principal : String
  hitos_procesales : List HitoCrudo
deriving DecidableEq

/-- `crear_contexto_del_caso_robusto` on the already loaded milestone
dicts: sort, then derive the principal docket from the last milestone;
`none` models the `IndexError` raised by `[0]` when the last milestone has
an `expedientes_principales` key holding an empty list. -/
def crear_contexto_del_caso_robusto (hitos : List HitoCrudo)
    (idCaso : String) : Option ContextoCaso :=
  let ordenados := ordenar_hitos hitos
  match ordenados.getLast? with
  | none => some ⟨idCaso, "No identificado", ordenados⟩
  | some ultimo =>
    match (ultimo.expedientes.getD ["No identificado"]).head? with
    | none => none
    | some e => some ⟨idCaso, e, ordenados⟩

/-- The principal docket as the spec words it: the first docket identifier
of the last sorted milestone, the sentinel when there is none. Used to
state claim C5 against `crear_contexto_del_caso_robusto`. -/
def principal_especificado (ordenados : List HitoCrudo) : String :=
  match ordenados.getLast? with
  | none => "No identificado"
  | some ultimo => (ultimo.expedientes.getD ["No identificado"]).headD "No identificado"

/-! ## Schema validation with auto-truncation
(src/proyecto_sentencia/models_extraccion.py `truncar_resumen`,
`truncar_planteamiento`). -/

/-- `v[:corte].rsplit(' ', 1)` in the truncating validators: split at the
last space of the prefix, `none` when the prefix has no space. -/
def rsplit1Espacio (l : List Char) : Option (List Char × List Char) :=
  let r := l.reverse
  match r.dropWhile (fun c => c ≠ ' ') with
  | [] => none
  | _ :: antesRev => some (antesRev.reverse, (r.takeWhile (fun c => c ≠ ' ')).reverse)

/-- Shared core of the truncating validators: take the first `corte`
characters, back up to the last word boundary when one exists, append an
ellipsis. -/
def truncarEnPalabra (corte : Nat) (v : List Char) : List Char :=
  match rsplit1Espacio (v.take corte) with
  | some (antes, _) => antes ++ ['.', '.', '.']
  | none => v.take corte ++ ['.', '.', '.']

/-- `PuntoAnalisis.truncar_resumen` (mode=before validator): summaries over
200 characters are truncated at a word boundary, not rejected. -/
def truncar_resumen (v : List Char) : List Char :=
  if v.length ≤ 200 then v else truncarEnPalabra 197 v

/-- `SCJNDocumentoMapeado.truncar_planteamiento` (mode=before validator). -/
def truncar_planteamiento (v : List Char) : List Char :=
  if v.length ≤ 280 then v else truncarEnPalabra 277 v

/-- Pydantic validation of the `resumen` field: run the mode=before
validator, then check the `max_length=200` constraint. -/
def validar_resumen (v : List Char) : Except String (List Char) :=
  let t := truncar_resumen v
  if t.length ≤ 200 then Except.ok t else Except.error "excede max_length"

/-- Pydantic validation of the `planteamiento_acto_reclamado` field
(`max_length=280`). -/
def validar_planteamiento (v : List Char) : Except String (List Char) :=
  let t := truncar_planteamiento v
  if t.length ≤ 280 then Except.ok t else Except.error "excede max_length"

/-! ## Section pipeline with checkpoint (src/main.py
`generar_secciones_proyecto`, `cargar_checkpoint`, `guardar_checkpoint`). -/

/-- One entry of `secciones_completadas`: artifact file name and token
cost (the timestamp and the constant status string are omitted). -/
structure SeccionCompletada where
  archivo : String
  tokens : Nat
deriving DecidableEq

/-- The section checkpoint record. `secciones_completadas` is the ordered
key/value list of the JSON dict; `errores` keeps `(seccion, error)`. -/
structure CheckpointSecciones where
  estado : String
  secciones_completadas : List (String × SeccionCompletada)
  errores : List (String × String)
  tokens_totales : Nat
deriving DecidableEq

/-- The fresh checkpoint built by `cargar_checkpoint` when no file exists
or parsing fails. -/
def checkpoint_inicial : CheckpointSecciones :=
  ⟨"iniciando", [], [], 0⟩

/-- `cargar_checkpoint`: `none` models a missing file, `some none` an
existing but unparseable one, `some (some p)` a parsed checkpoint. -/
def cargar_checkpoint (archivo : Option (Option CheckpointSecciones)) :
    CheckpointSecciones :=
  match archivo with
  | some (some progreso) => { progreso with estado := "resumiendo" }
  | _ => checkpoint_inicial

/-- Python dict assignment `m[k] = v` on a key/value list: replace in
place when the key exists, append otherwise. -/
def asignarClave (m : List (String × SeccionCompletada)) (k : String)
    (v : SeccionCompletada) : List (String × SeccionCompletada) :=
  if (m.lookup k).isSome then
    m.map (fun kv => if kv.1 = k then (k, v) else kv)
  else m ++ [(k, v)]

/-- Success update of the pipeline loop: store the section artifact entry
and add its tokens to the running total. -/
def registrar_seccion_completada (p : CheckpointSecciones)
    (nombre archivo : String) (tokens : Nat) : CheckpointSecciones :=
  { p with
    secciones_completadas := asignarClave p.secciones_completadas nombre ⟨archivo, tokens⟩,
    tokens_totales := p.tokens_totales + tokens }

/-- Failure update of the pipeline loop: append the error record. -/
def registrar_error_seccion (p : CheckpointSecciones)
    (seccion error : String) : CheckpointSecciones :=
  { p with errores := p.errores ++ [(seccion, error)] }

/-- One iteration of the section loop: skip a section already completed,
otherwise call the generation service (`gen`, yielding tokens on success
or an error message) and record the outcome. A failure only appends an
error record — the loop continues. -/
def procesar_seccion (gen : String → Except String Nat)
    (p : CheckpointSecciones) (nombre : String) : CheckpointSecciones :=
  if (p.secciones_completadas.lookup nombre).isSome then p
  else
    match gen nombre with
    | Except.ok tokens =>
        registrar_seccion_completada p nombre ("seccion_" ++ nombre) tokens
    | Except.error e => registrar_error_seccion p nombre e

/-- The section loop over the whole pipeline. -/
def correr_pipeline (gen : String → Except String Nat)
    (p0 : CheckpointSecciones) (secciones : List String) :
    CheckpointSecciones :=
  secciones.foldl (procesar_seccion gen) p0

/-- Final-document step: when at least one completed section is recorded,
load those whose artifact file still exists (`existe`) and set the final
state by comparing the loaded count with the pipeline length; with no
completed section the checkpoint is left as is. -/
def finalizar_documento (existe : String → Bool) (secciones : List String)
    (p : CheckpointSecciones) : CheckpointSecciones :=
  if p.secciones_completadas.isEmpty then p
  else
    let cargadas := p.secciones_completadas.filter (fun kv => existe kv.2.archivo)
    { p with
      estado := if cargadas.length = secciones.length then "documento_generado"
                else "documento_parcial" }

/-- `generar_secciones_proyecto` after the checkpoint is loaded: run the
section loop, then the final-document step. -/
def generar_secciones_proyecto (gen : String → Except String Nat)
    (existe : String → Bool) (secciones : List String)
    (p0 : CheckpointSecciones) : CheckpointSecciones :=
  finalizar_documento existe secciones (correr_pipeline gen p0 secciones)

/-- The fixed pipeline of `generar_secciones_proyecto`. -/
def pipeline_secciones : List String :=
  ["antecedentes", "formalidades", "procedencia"]

/-- Checkpoint states reachable from a fresh checkpoint through the two
update operations of the pipeline. The success constructor carries the
freshness of the section name, mirroring the skip guard
(`if nombre_seccion in progreso['secciones_completadas']: continue`)
that precedes every success update. -/
inductive CheckpointAlcanzable : CheckpointSecciones → Prop
  | inicial : CheckpointAlcanzable checkpoint_inicial
  | exito (p : CheckpointSecciones) (nombre archivo : String) (tokens : Nat)
      (hnuevo : p.secciones_completadas.lookup nombre = none)
      (hp : CheckpointAlcanzable p) :
      CheckpointAlcanzable (registrar_seccion_completada p nombre archivo tokens)
  | fallo (p : CheckpointSecciones) (seccion error : String)
      (hp : CheckpointAlcanzable p) :
      CheckpointAlcanzable (registrar_error_seccion p seccion error)

end SCJN

namespace SCJN

/-! ## Support lemmas: splitting into words and rejoining -/

theorem pyWordsAux_append_nonspace (w : List Char)
    (hw : ∀ c ∈ w, pyIsSpace c = false) (cur rest : List Char) :
    pyWordsAux cur (w ++ rest) = pyWordsAux (cur ++ w) rest := by
  induction w generalizing cur with
  | nil => simp
  | cons c cs ih =>
    have hc : pyIsSpace c = false := hw c (by simp)
    have hcs : ∀ d ∈ cs, pyIsSpace d = false := fun d hd => hw d (by simp [hd])
    simp only [List.cons_append, pyWordsAux, hc, Bool.false_eq_true, if_false,
      List.append_eq]
    rw [ih hcs]
    simp

theorem pyWordsAux_nil_ne (cur : List Char) (h : cur ≠ []) :
    pyWordsAux cur [] = [cur] := by
  simp [pyWordsAux, h]

theorem pyWordsAux_space (cur rest : List Char) (h : cur ≠ []) :
    pyWordsAux cur (' ' :: rest) = cur :: pyWordsAux [] rest := by
  simp [pyWordsAux, h, pyIsSpace]

theorem pyWordsAux_cons_nonspace (cur : List Char) (c : Char)
    (cs : List Char) (hc : pyIsSpace c = false) :
    pyWordsAux cur (c :: cs) = pyWordsAux (cur ++ [c]) cs := by
  simp [pyWordsAux, hc]

theorem pyWordsAux_wf (l : List Char) :
    ∀ cur, (∀ c ∈ cur, pyIsSpace c = false) →
      ∀ w ∈ pyWordsAux cur l, w ≠ [] ∧ ∀ c ∈ w, pyIsSpace c = false := by
  induction l with
  | nil =>
    intro cur hcur w hw
    by_cases h : cur = []
    · simp [pyWordsAux, h] at hw
    · simp only [pyWordsAux, h, if_false] at hw
      simp at hw
      subst hw
      exact ⟨h, hcur⟩
  | cons c cs ih =>
    intro cur hcur w hw
    simp only [pyWordsAux] at hw
    by_cases hsp : pyIsSpace c
    · simp only [hsp, if_true] at hw
      by_cases h : cur = []
      · simp only [h, if_true] at hw
        exact ih [] (by simp) w hw
      · simp only [h, if_false] at hw
        rcases List.mem_cons.mp hw with h1 | h1
        · subst h1; exact ⟨h, hcur⟩
        · exact ih [] (by simp) w h1
    · simp only [hsp, if_false] at hw
      refine ih (cur ++ [c]) ?_ w hw
      intro d hd
      rcases List.mem_append.mp hd with h1 | h1
      · exact hcur d h1
      · simp at h1; subst h1; simpa using hsp

theorem pyWords_wf (l : List Char) :
    ∀ w ∈ pyWords l, w ≠ [] ∧ ∀ c ∈ w, pyIsSpace c = false :=
  pyWordsAux_wf l [] (by simp)

theorem unwords_cons_ne (a : List Char) (rest : List (List Char))
    (h : rest ≠ []) :
    unwords (a :: rest) = a ++ ' ' :: unwords rest := by
  cases rest with
  | nil => exact absurd rfl h
  | cons v vs => rfl

theorem pyWords_unwords (ws : List (List Char))
    (h : ∀ w ∈ ws, w ≠ [] ∧ ∀ c ∈ w, pyIsSpace c = false) :
    pyWords (unwords ws) = ws := by
  induction ws with
  | nil => rfl
  | cons w ws ih =>
    rcases h w (by simp) with ⟨hne, hns⟩
    cases ws with
    | nil =>
      show pyWordsAux [] (unwords [w]) = [w]
      have h1 := pyWordsAux_append_nonspace w hns [] []
      simp only [List.append_nil, List.nil_append] at h1
      show pyWordsAux [] w = [w]
      rw [h1, pyWordsAux_nil_ne w hne]
    | cons v vs =>
      have hrec := ih (fun x hx => h x (by simp [hx]))
      show pyWordsAux [] (unwords (w :: v :: vs)) = w :: v :: vs
      rw [unwords_cons_ne w (v :: vs) (by simp)]
      have h1 := pyWordsAux_append_nonspace w hns [] (' ' :: unwords (v :: vs))
      simp only [List.nil_append] at h1
      rw [h1, pyWordsAux_space _ _ hne]
      exact congrArg (w :: ·) hrec

/-! ## Support lemmas: the greedy chunk loop -/

theorem chunkLoop_ne_nil (maxChars : Nat) (ws : List (List Char)) :
    ∀ acc, acc ≠ [] → chunkLoop maxChars acc ws ≠ [] := by
  induction ws with
  | nil => intro acc h; simp [chunkLoop, h]
  | cons w ws ih =>
    intro acc h
    simp only [chunkLoop, h, if_false]
    split
    · exact ih _ (by simp)
    · simp

theorem unwords_chunkLoop_acc (maxChars : Nat) (ws : List (List Char)) :
    ∀ acc, acc ≠ [] →
      (∀ w ∈ ws, w ≠ [] ∧ w.length ≤ maxChars) →
      unwords (chunkLoop maxChars acc ws) = unwords (acc :: ws) := by
  induction ws with
  | nil => intro acc h _; simp [chunkLoop, h]
  | cons w ws ih =>
    intro acc hacc hws
    obtain ⟨hwne, hwlen⟩ := hws w (by simp)
    have hws2 : ∀ x ∈ ws, x ≠ [] ∧ x.length ≤ maxChars :=
      fun x hx => hws x (by simp [hx])
    simp only [chunkLoop, hacc, if_false]
    by_cases hlen : (acc ++ ' ' :: w).length ≤ maxChars
    · rw [if_pos hlen, ih _ (by simp) hws2]
      cases ws with
      | nil => rfl
      | cons v vs =>
        rw [unwords_cons_ne _ (v :: vs) (by simp),
            unwords_cons_ne _ (w :: v :: vs) (by simp),
            unwords_cons_ne _ (v :: vs) (by simp)]
        simp [List.append_assoc]
    · rw [if_neg hlen,
          unwords_cons_ne _ _ (chunkLoop_ne_nil maxChars ws w hwne),
          ih _ hwne hws2,
          unwords_cons_ne _ (w :: ws) (by simp)]

theorem unwords_chunkLoop (maxChars : Nat) (ws : List (List Char))
    (h : ∀ w ∈ ws, w ≠ [] ∧ w.length ≤ maxChars) :
    unwords (chunkLoop maxChars [] ws) = unwords ws := by
  cases ws with
  | nil => rfl
  | cons w ws =>
    obtain ⟨hwne, hwlen⟩ := h w (by simp)
    simp only [chunkLoop, if_pos rfl, if_true]
    rw [if_pos hwlen]
    exact unwords_chunkLoop_acc maxChars ws w hwne
      (fun x hx => h x (by simp [hx]))

theorem chunkLoop_length_le (maxChars : Nat) (ws : List (List Char)) :
    ∀ acc, acc.length ≤ maxChars →
      (∀ w ∈ ws, w.length ≤ maxChars) →
      ∀ f ∈ chunkLoop maxChars acc ws, f.length ≤ maxChars := by
  induction ws with
  | nil =>
    intro acc hacc _ f hf
    simp only [chunkLoop] at hf
    split at hf
    · simp at hf
    · simp at hf; subst hf; exact hacc
  | cons w ws ih =>
    intro acc hacc hws f hf
    have hwlen := hws w (by simp)
    have hws2 : ∀ x ∈ ws, x.length ≤ maxChars := fun x hx => hws x (by simp [hx])
    simp only [chunkLoop] at hf
    by_cases he : acc = []
    · simp only [he, if_true, if_pos rfl] at hf
      by_cases hlen : w.length ≤ maxChars
      · rw [if_pos hlen] at hf
        exact ih w hlen hws2 f hf
      · rw [if_neg hlen] at hf
        rcases List.mem_cons.mp hf with h1 | h1
        · subst h1; exact List.length_take_le maxChars w
        · exact ih [] (by simp) hws2 f h1
    · simp only [he, if_false] at hf
      by_cases hlen : (acc ++ ' ' :: w).length ≤ maxChars
      · rw [if_pos hlen] at hf
        exact ih _ hlen hws2 f hf
      · rw [if_neg hlen] at hf
        rcases List.mem_cons.mp hf with h1 | h1
        · subst h1; exact hacc
        · exact ih w hwlen hws2 f h1

/-! ## Support lemmas: concrete chunk computations (kept symbolic because
the relevant texts exceed what kernel evaluation handles comfortably) -/

theorem pyWords_replicate (n : Nat) (hn : n ≠ 0) (c : Char)
    (hc : pyIsSpace c = false) :
    pyWords (List.replicate n c) = [List.replicate n c] := by
  have h1 := pyWordsAux_append_nonspace (List.replicate n c)
    (fun d hd => by rw [List.eq_of_mem_replicate hd]; exact hc) [] []
  simp only [List.append_nil, List.nil_append] at h1
  unfold pyWords
  rw [h1, pyWordsAux_nil_ne _ (by simp [hn])]

theorem normalizar_replicate (n : Nat) (hn : n ≠ 0) (c : Char)
    (hc : pyIsSpace c = false) :
    normalizar (List.replicate n c) = List.replicate n c := by
  unfold normalizar
  rw [pyWords_replicate n hn c hc]
  rfl

theorem chunkLoop_single_long (maxChars : Nat) (w : List Char)
    (h : ¬ w.length ≤ maxChars) :
    chunkLoop maxChars [] [w] = [w.take maxChars] := by
  simp [chunkLoop, h]

theorem chunkLoop_pair_long (maxChars : Nat) (a w : List Char)
    (ha : a ≠ []) (halen : a.length ≤ maxChars)
    (h : ¬ (a ++ ' ' :: w).length ≤ maxChars) (hw : w ≠ []) :
    chunkLoop maxChars [] [a, w] = [a, w] := by
  simp only [List.length_append, List.length_cons] at h
  simp [chunkLoop, halen, ha, hw]
  omega

theorem chunkLoop_replicate_palabra (maxChars : Nat) (w : List Char)
    (hne : w ≠ []) (hbig : ¬ (w ++ ' ' :: w).length ≤ maxChars) :
    ∀ n, chunkLoop maxChars w (List.replicate n w) = List.replicate (n + 1) w := by
  intro n
  induction n with
  | zero => simp [chunkLoop, hne]
  | succ n ih =>
    rw [List.replicate_succ]
    simp only [chunkLoop]
    rw [if_neg hne, if_neg hbig, if_neg hne, ih]
    exact (List.replicate_succ w (n + 1)).symm

theorem chunkLoop_replicate_desde_vacio (maxChars : Nat) (w : List Char)
    (hne : w ≠ []) (hlen : w.length ≤ maxChars)
    (hbig : ¬ (w ++ ' ' :: w).length ≤ maxChars) (n : Nat) :
    chunkLoop maxChars [] (List.replicate (n + 1) w) = List.replicate (n + 1) w := by
  rw [List.replicate_succ]
  simp only [chunkLoop, if_pos rfl, if_true]
  rw [if_pos hlen, chunkLoop_replicate_palabra maxChars w hne hbig n]
  exact List.replicate_succ w n

theorem unwords_replicate_length (w : List Char) :
    ∀ k, k ≠ 0 → (unwords (List.replicate k w)).length = k * w.length + (k - 1) := by
  intro k
  induction k with
  | zero => intro h; contradiction
  | succ k ih =>
    intro _
    cases k with
    | zero => simp [unwords]
    | succ k2 =>
      rw [List.replicate_succ, unwords_cons_ne _ _ (by simp)]
      have h2 := ih (by simp)
      simp only [List.length_append, List.length_cons, h2]
      ring_nf
      omega

theorem partir_en_chunks_replicate_largo (n maxChars : Nat) (h : maxChars < n) :
    partir_en_chunks (List.replicate n 'a') maxChars =
      [List.replicate maxChars 'a'] := by
  unfold partir_en_chunks
  rw [if_neg (by simp; omega)]
  rw [pyWords_replicate n (by omega) 'a' (by decide)]
  rw [chunkLoop_single_long _ _ (by simp; omega)]
  rw [List.take_replicate, Nat.min_eq_left (Nat.le_of_lt h)]

theorem partir_cita_larga_replicate_largo (n maxChars : Nat) (h : maxChars < n) :
    partir_cita_larga (List.replicate n 'a') maxChars =
      [List.replicate maxChars 'a'] := by
  unfold partir_cita_larga
  rw [if_neg (by simp; omega)]
  rw [pyWords_replicate n (by omega) 'a' (by decide)]
  rw [chunkLoop_single_long _ _ (by simp; omega)]
  rw [List.take_replicate, Nat.min_eq_left (Nat.le_of_lt h)]
  rfl

/-! ## Claims C2 and C3: the quote splitters -/

/-- Claim C2, counterexample. Neither splitter variant is lossless at its
configured maximum: a single 451-character word loses its final character
under `_partir_en_chunks` (`palabra[:max_chars]`), and a single
951-character word loses its final character under `partir_cita_larga`. -/
theorem quote_splitting_losslessness_refuted :
    normalizar (unwords (partir_en_chunks (List.replicate 451 'a') 450)) ≠
      normalizar (List.replicate 451 'a') ∧
    normalizar (unwords (partir_cita_larga (List.replicate 951 'a') 950)) ≠
      normalizar (List.replicate 951 'a') := by
  constructor
  · rw [partir_en_chunks_replicate_largo 451 450 (by omega)]
    show normalizar (List.replicate 450 'a') ≠ _
    rw [normalizar_replicate 450 (by omega) 'a' (by decide),
        normalizar_replicate 451 (by omega) 'a' (by decide)]
    intro heq
    have hlen := congrArg List.length heq
    simp at hlen
  · rw [partir_cita_larga_replicate_largo 951 950 (by omega)]
    show normalizar (List.replicate 950 'a') ≠ _
    rw [normalizar_replicate 950 (by omega) 'a' (by decide),
        normalizar_replicate 951 (by omega) 'a' (by decide)]
    intro heq
    have hlen := congrArg List.length heq
    simp at hlen

/-- Claim C2, amended: joining the fragments with single spaces reproduces
the whitespace-normalized text provided every whitespace-delimited word is
at most the configured maximum long (a longer word is cut at the maximum,
losing its tail), and — for the capped variant `partir_cita_larga` — the
greedy packing needs at most 5 fragments (fragments beyond the fifth are
discarded). -/
theorem quote_splitting_losslessness (texto : List Char) (maxChars : Nat)
    (hw : ∀ w ∈ pyWords texto, w.length ≤ maxChars) :
    normalizar (unwords (partir_en_chunks texto maxChars)) = normalizar texto ∧
    ((chunkLoop maxChars [] (pyWords texto)).length ≤ 5 →
      normalizar (unwords (partir_cita_larga texto maxChars)) = normalizar texto) := by
  have hwf := pyWords_wf texto
  have hws : ∀ w ∈ pyWords texto, w ≠ [] ∧ w.length ≤ maxChars :=
    fun w h => ⟨(hwf w h).1, hw w h⟩
  have key : unwords (chunkLoop maxChars [] (pyWords texto)) =
      unwords (pyWords texto) := unwords_chunkLoop _ _ hws
  have hnorm : normalizar (unwords (pyWords texto)) = normalizar texto := by
    unfold normalizar
    rw [pyWords_unwords _ hwf]
  constructor
  · unfold partir_en_chunks
    split
    · rfl
    · rw [key]; exact hnorm
  · intro h5
    unfold partir_cita_larga
    split
    · rfl
    · rw [List.take_of_length_le h5, key]; exact hnorm

/-- Witness for the amended C2 at a concrete text. -/
theorem quote_splitting_losslessness_witness :
    normalizar (unwords (partir_en_chunks ("ab cd ef".toList) 5)) =
      normalizar ("ab cd ef".toList) ∧
    normalizar (unwords (partir_cita_larga ("ab cd ef".toList) 5)) =
      normalizar ("ab cd ef".toList) :=
  ⟨(quote_splitting_losslessness ("ab cd ef".toList) 5 (by decide)).1,
   (quote_splitting_losslessness ("ab cd ef".toList) 5 (by decide)).2 (by decide)⟩

/-- Claim C3, counterexample. A word longer than the maximum that follows
a nonempty chunk becomes a fragment exceeding the maximum (951 > 950), and
the uncapped `_partir_en_chunks` produces 6 fragments when the text needs
them — only `partir_cita_larga` caps at 5. -/
theorem quote_splitting_bounds_refuted :
    (∃ f ∈ partir_cita_larga ('a' :: ' ' :: List.replicate 951 'b') 950,
      950 < f.length) ∧
    5 < (partir_en_chunks
      (unwords (List.replicate 6 (List.replicate 450 'a'))) 450).length := by
  constructor
  · have hpy : pyWords ('a' :: ' ' :: List.replicate 951 'b') =
        [['a'], List.replicate 951 'b'] := by
      show pyWordsAux [] ('a' :: ' ' :: List.replicate 951 'b') = _
      rw [pyWordsAux_cons_nonspace [] 'a' _ (by decide)]
      simp only [List.nil_append]
      rw [pyWordsAux_space ['a'] _ (by simp)]
      have hb := pyWords_replicate 951 (by omega) 'b' (by decide)
      unfold pyWords at hb
      rw [hb]
    unfold partir_cita_larga
    rw [if_neg (by simp)]
    rw [hpy]
    rw [chunkLoop_pair_long 950 ['a'] (List.replicate 951 'b') (by simp)
      (by simp) (by simp) (by simp)]
    refine ⟨List.replicate 951 'b', by simp, by simp⟩
  · have hwords : ∀ x ∈ List.replicate 6 (List.replicate 450 'a'),
        x ≠ [] ∧ ∀ c ∈ x, pyIsSpace c = false := by
      intro x hx
      rw [List.eq_of_mem_replicate hx]
      refine ⟨by simp, ?_⟩
      intro c hc
      rw [List.eq_of_mem_replicate hc]
      decide
    have hlen : (unwords (List.replicate 6 (List.replicate 450 'a'))).length =
        2705 := by
      rw [unwords_replicate_length _ 6 (by omega)]
      simp
    unfold partir_en_chunks
    rw [if_neg (by rw [hlen]; omega)]
    rw [show pyWords (unwords (List.replicate 6 (List.replicate 450 'a'))) =
        List.replicate 6 (List.replicate 450 'a') from
      pyWords_unwords _ hwords]
    rw [show (6 : Nat) = 5 + 1 from rfl,
        chunkLoop_replicate_desde_vacio 450 (List.replicate 450 'a')
          (by simp) (by simp) (by simp) 5]
    simp

/-- Claim C3, amended: every fragment of both splitters is at most the
configured maximum long provided every whitespace-delimited word of the
text is (a longer word can survive as an oversized fragment); the capped
variant `partir_cita_larga` always produces at most 5 fragments, while
`_partir_en_chunks` is uncapped (the 5-item bound there is enforced only
by the `citas` field constraint, which rejects rather than truncates). -/
theorem quote_splitting_bounds (texto : List Char) (maxChars : Nat)
    (hw : ∀ w ∈ pyWords texto, w.length ≤ maxChars) :
    (∀ f ∈ partir_en_chunks texto maxChars, f.length ≤ maxChars) ∧
    (∀ f ∈ partir_cita_larga texto maxChars, f.length ≤ maxChars) ∧
    (partir_cita_larga texto maxChars).length ≤ 5 := by
  refine ⟨?_, ?_, ?_⟩
  · intro f hf
    unfold partir_en_chunks at hf
    split at hf
    · simp at hf; subst hf; assumption
    · exact chunkLoop_length_le maxChars _ [] (by simp) hw f hf
  · intro f hf
    unfold partir_cita_larga at hf
    split at hf
    · simp at hf; subst hf; assumption
    · exact chunkLoop_length_le maxChars _ [] (by simp) hw f
        (List.take_subset 5 _ hf)
  · unfold partir_cita_larga
    split
    · simp
    · exact List.length_take_le 5 _

/-- Witness for the amended C3 at a concrete text. -/
theorem quote_splitting_bounds_witness :
    (∀ f ∈ partir_en_chunks ("ab cd ef".toList) 5, f.length ≤ 5) ∧
    (partir_cita_larga ("ab cd ef".toList) 5).length ≤ 5 :=
  ⟨(quote_splitting_bounds ("ab cd ef".toList) 5 (by decide)).1,
   (quote_splitting_bounds ("ab cd ef".toList) 5 (by decide)).2.2⟩

/-! ## Support lemmas: audit log and batch run -/

theorem mem_docsProcesados (bitacora : List BitacoraEntry) (d : String) :
    d ∈ docsProcesadosExitosamente bitacora ↔
      ∃ x ∈ bitacora, x.status = "success" ∧ x.documento = d := by
  simp only [docsProcesadosExitosamente, List.mem_map, List.mem_filter,
    decide_eq_true_eq]
  constructor
  · rintro ⟨x, ⟨hx, hs⟩, hdoc⟩
    exact ⟨x, hx, hs, hdoc⟩
  · rintro ⟨x, hx, hs, hdoc⟩
    exact ⟨x, ⟨hx, hs⟩, hdoc⟩

theorem docsProcesados_append (b1 b2 : List BitacoraEntry) :
    docsProcesadosExitosamente (b1 ++ b2) =
      docsProcesadosExitosamente b1 ++ docsProcesadosExitosamente b2 := by
  simp [docsProcesadosExitosamente]

theorem bitacoraFinal_eq_append (resultado : String → Option Nat)
    (disponibles : List String) (bitacora : List BitacoraEntry) :
    (procesar_expediente_completo resultado disponibles bitacora).bitacoraFinal =
      bitacora ++ (analizar_estado_expediente disponibles bitacora).map
        (entradaDeDocumento resultado) := by
  show (analizar_estado_expediente disponibles bitacora).foldl
      (fun b d => b ++ [entradaDeDocumento resultado d]) bitacora = _
  generalize analizar_estado_expediente disponibles bitacora = pend
  induction pend generalizing bitacora with
  | nil => simp
  | cons d ds ih => simp [ih]

theorem exito_tras_corrida (resultado : String → Option Nat)
    (disponibles : List String) (bitacora : List BitacoraEntry)
    (h : ∀ d ∈ disponibles, (resultado d).isSome) :
    ∀ d ∈ disponibles,
      d ∈ docsProcesadosExitosamente
        (procesar_expediente_completo resultado disponibles bitacora).bitacoraFinal := by
  intro d hd
  rw [bitacoraFinal_eq_append, docsProcesados_append, List.mem_append]
  by_cases hpend : d ∈ analizar_estado_expediente disponibles bitacora
  · right
    rw [mem_docsProcesados]
    refine ⟨entradaDeDocumento resultado d, List.mem_map_of_mem _ hpend, ?_, ?_⟩
    · unfold entradaDeDocumento
      rcases hres : resultado d with _ | t
      · have hsome := h d hd
        rw [hres] at hsome
        simp at hsome
      · simp
    · unfold entradaDeDocumento
      rcases resultado d with _ | t <;> simp
  · left
    unfold analizar_estado_expediente at hpend
    by_cases hb : bitacora = []
    · rw [if_pos hb] at hpend; exact absurd hd hpend
    · rw [if_neg hb] at hpend
      simp only [List.mem_filter, decide_eq_true_eq] at hpend
      push_neg at hpend
      exact hpend hd

/-! ## Claim C1: resume idempotence of the batch coordinator -/

/-- Claim C1, counterexample. With one document whose processing fails
terminally, the first run records an `error` entry; the second run finds
the document pending again, calls the service for it and appends another
entry — the pending set is not empty, the audit log changes. -/
theorem resume_idempotencia_refutada :
    ¬ ((procesar_expediente_completo (fun _ => none) ["a.pdf"]
          (procesar_expediente_completo (fun _ => none) ["a.pdf"]
            []).bitacoraFinal).llamadasServicio = [] ∧
       (procesar_expediente_completo (fun _ => none) ["a.pdf"]
          (procesar_expediente_completo (fun _ => none) ["a.pdf"]
            []).bitacoraFinal).bitacoraFinal =
         (procesar_expediente_completo (fun _ => none) ["a.pdf"]
           []).bitacoraFinal) := by
  decide

/-- Claim C1, amended: when every available document is processed
successfully by the first run (the case in which the document set is both
unchanged and fully extracted), the second run computes an empty pending
set, makes zero service calls, leaves the audit log exactly as the first
run persisted it, and its completeness check succeeds — whatever the
second oracle would have answered. -/
theorem resume_idempotencia (r1 r2 : String → Option Nat)
    (disponibles : List String) (bitacora : List BitacoraEntry)
    (h : ∀ d ∈ disponibles, (r1 d).isSome) :
    analizar_estado_expediente disponibles
      (procesar_expediente_completo r1 disponibles bitacora).bitacoraFinal = [] ∧
    (procesar_expediente_completo r2 disponibles
      (procesar_expediente_completo r1 disponibles bitacora).bitacoraFinal).llamadasServicio = [] ∧
    (procesar_expediente_completo r2 disponibles
      (procesar_expediente_completo r1 disponibles bitacora).bitacoraFinal).bitacoraFinal =
      (procesar_expediente_completo r1 disponibles bitacora).bitacoraFinal ∧
    (procesar_expediente_completo r2 disponibles
      (procesar_expediente_completo r1 disponibles bitacora).bitacoraFinal).expedienteCompleto = true := by
  have key := exito_tras_corrida r1 disponibles bitacora h
  have hpend : analizar_estado_expediente disponibles
      (procesar_expediente_completo r1 disponibles bitacora).bitacoraFinal = [] := by
    unfold analizar_estado_expediente
    split
    · rename_i hB
      by_cases hdisp : disponibles = []
      · exact hdisp
      · rcases List.exists_mem_of_ne_nil disponibles hdisp with ⟨d, hd⟩
        have := key d hd
        rw [hB] at this
        simp [docsProcesadosExitosamente] at this
    · rw [List.filter_eq_nil_iff]
      intro d hd
      simp only [decide_eq_true_eq, Decidable.not_not]
      exact key d hd
  refine ⟨hpend, ?_, ?_, ?_⟩
  · show analizar_estado_expediente _ _ = []
    exact hpend
  · rw [bitacoraFinal_eq_append, hpend]
    simp
  · show verificar_expediente_completo disponibles
      (List.foldl (fun b d => b ++ [entradaDeDocumento r2 d])
        (procesar_expediente_completo r1 disponibles bitacora).bitacoraFinal
        (analizar_estado_expediente disponibles
          (procesar_expediente_completo r1 disponibles bitacora).bitacoraFinal)) = true
    rw [hpend]
    simp only [List.foldl_nil]
    unfold verificar_expediente_completo
    rw [List.all_eq_true]
    intro d hd
    simpa using key d hd

/-- Witness for the amended C1 at a concrete case. -/
theorem resume_idempotencia_witness :
    (procesar_expediente_completo (fun _ => none) ["a.pdf", "b.pdf"]
      (procesar_expediente_completo (fun _ => some 5) ["a.pdf", "b.pdf"]
        []).bitacoraFinal).llamadasServicio = [] :=
  (resume_idempotencia (fun _ => some 5) (fun _ => none)
    ["a.pdf", "b.pdf"] [] (by decide)).2.1

/-! ## Claim C6: the completeness check -/

/-- Claim C6, counterexample. With a duplicated success entry for the only
available document the state is judged complete, and removing one of the
two success entries leaves it judged complete — removal does not always
falsify the check. -/
theorem completitud_expediente_refutada :
    verificar_expediente_completo ["a.pdf"]
      [⟨"a.pdf", "success"⟩, ⟨"a.pdf", "success"⟩] = true ∧
    verificar_expediente_completo ["a.pdf"] [⟨"a.pdf", "success"⟩] = true := by
  decide

/-- Claim C6, amended: the case is judged complete iff every available
document name has some success entry; and removing a success entry whose
document is available and has no other success entry makes the check
evaluate false. -/
theorem completitud_expediente (disponibles : List String)
    (bitacora bit1 bit2 : List BitacoraEntry) (e : BitacoraEntry)
    (hs : e.status = "success") (hd : e.documento ∈ disponibles)
    (hu : ∀ x ∈ bit1 ++ bit2, x.status = "success" → x.documento ≠ e.documento)
    (hcompleto : verificar_expediente_completo disponibles
      (bit1 ++ e :: bit2) = true) :
    (verificar_expediente_completo disponibles bitacora = true ↔
      ∀ d ∈ disponibles, ∃ x ∈ bitacora, x.status = "success" ∧
        x.documento = d) ∧
    verificar_expediente_completo disponibles (bit1 ++ bit2) = false := by
  have hiff : ∀ (b : List BitacoraEntry),
      verificar_expediente_completo disponibles b = true ↔
        ∀ d ∈ disponibles, ∃ x ∈ b, x.status = "success" ∧ x.documento = d := by
    intro b
    unfold verificar_expediente_completo
    rw [List.all_eq_true]
    constructor
    · intro hall d hdm
      exact (mem_docsProcesados b d).mp (by simpa using hall d hdm)
    · intro hall d hdm
      simpa using (mem_docsProcesados b d).mpr (hall d hdm)
  refine ⟨hiff bitacora, ?_⟩
  rw [Bool.eq_false_iff]
  intro htrue
  rcases (hiff (bit1 ++ bit2)).mp htrue e.documento hd with ⟨x, hx, hxs, hxd⟩
  exact hu x hx hxs hxd

/-- Witness for the amended C6 at a concrete log. -/
theorem completitud_expediente_witness :
    verificar_expediente_completo ["a.pdf"]
      (([] : List BitacoraEntry) ++ []) = false :=
  (completitud_expediente ["a.pdf"] [] [] [] ⟨"a.pdf", "success"⟩ rfl
    (by decide) (by decide) (by decide)).2

/-! ## Support lemmas: milestone consolidator -/

theorem lookup_ORDEN_ETAPAS_le (k : String) (o : Nat)
    (h : ORDEN_ETAPAS.lookup k = some o) : o ≤ 7 := by
  simp only [ORDEN_ETAPAS, List.lookup_cons] at h
  repeat' split at h
  all_goals simp_all
  all_goals omega

theorem clave_de_desconocida (d : HitoCrudo) (h : etapaConocida d = false) :
    (clave_ordenamiento d).1 = 99 := by
  unfold etapaConocida at h
  unfold clave_ordenamiento
  rcases hl : ORDEN_ETAPAS.lookup (d.etapa.getD "ETAPA_DESCONOCIDA") with _ | o
  · simp [hl]
  · rw [hl] at h
    simp at h

theorem clave_de_conocida (d : HitoCrudo) (h : etapaConocida d = true) :
    (clave_ordenamiento d).1 ≤ 7 := by
  unfold etapaConocida at h
  unfold clave_ordenamiento
  rcases hl : ORDEN_ETAPAS.lookup (d.etapa.getD "ETAPA_DESCONOCIDA") with _ | o
  · rw [hl] at h
    simp at h
  · simp only [hl]
    exact lookup_ORDEN_ETAPAS_le _ o hl

/-! ## Claim C4: unknown stage tags sort last, without error -/

/-- Claim C4: in the consolidator ordering, no milestone with a
recognised stage tag ever appears after one with an unrecognised tag
(unknown tags get rank 99, above every table rank), and sorting is total:
no milestone is lost to an error — the output is as long as the input. -/
theorem orden_etapa_desconocida (hitos : List HitoCrudo) (i j : Nat)
    (hij : i < j) (hj : j < (ordenar_hitos hitos).length)
    (hi : etapaConocida ((ordenar_hitos hitos).get
      ⟨i, Nat.lt_trans hij hj⟩) = false) :
    etapaConocida ((ordenar_hitos hitos).get ⟨j, hj⟩) = false ∧
    (ordenar_hitos hitos).length = hitos.length := by
  constructor
  · have hsorted : List.Sorted (fun a b : HitoCrudo => claveLe a b = true)
        (ordenar_hitos hitos) :=
      List.sorted_insertionSort _ hitos
    have hpair := List.pairwise_iff_get.mp hsorted
      ⟨i, Nat.lt_trans hij hj⟩ ⟨j, hj⟩ hij
    rcases hcon : etapaConocida ((ordenar_hitos hitos).get ⟨j, hj⟩) with _ | _
    · rfl
    · exfalso
      have h99 := clave_de_desconocida _ hi
      have h7 := clave_de_conocida _ hcon
      simp only [claveLe, parClaveLe, Bool.or_eq_true, Bool.and_eq_true,
        decide_eq_true_eq] at hpair
      omega
  · exact (List.perm_insertionSort _ hitos).length_eq

/-- Witness for C4: an unknown tag ("Otra") dated before the known ones
still sorts after them; here positions 1 and 2 of the sorted output are
the unknown-tagged milestones. -/
theorem orden_etapa_desconocida_witness :
    etapaConocida ((ordenar_hitos
      [⟨some "Demanda de Amparo", some (2023, 3, 1), none⟩,
       ⟨some "Otra", some (2020, 1, 1), none⟩,
       ⟨none, some (2021, 1, 1), none⟩]).get ⟨2, by decide⟩) = false ∧
    (ordenar_hitos
      [⟨some "Demanda de Amparo", some (2023, 3, 1), none⟩,
       ⟨some "Otra", some (2020, 1, 1), none⟩,
       ⟨none, some (2021, 1, 1), none⟩]).length =
      ([⟨some "Demanda de Amparo", some (2023, 3, 1), none⟩,
        ⟨some "Otra", some (2020, 1, 1), none⟩,
        ⟨none, some (2021, 1, 1), none⟩] : List HitoCrudo).length :=
  orden_etapa_desconocida
    [⟨some "Demanda de Amparo", some (2023, 3, 1), none⟩,
     ⟨some "Otra", some (2020, 1, 1), none⟩,
     ⟨none, some (2021, 1, 1), none⟩] 1 2 (by omega) (by decide) (by decide)

/-! ## Claim C5: derivation of the principal docket -/

/-- Claim C5, counterexample. A milestone whose
`expedientes_principales` key holds an empty list makes the consolidator
raise an `IndexError` at `[0]` (modelled as `none`): no context with the
claimed principal docket is produced. -/
theorem expediente_principal_refutado :
    crear_contexto_del_caso_robusto
      [⟨some "Avocamiento", some (2024, 1, 1), some []⟩] "123-2024" ≠
      some ⟨"123-2024",
        principal_especificado (ordenar_hitos
          [⟨some "Avocamiento", some (2024, 1, 1), some []⟩]),
        ordenar_hitos [⟨some "Avocamiento", some (2024, 1, 1), some []⟩]⟩ := by
  decide

/-- Claim C5, amended: provided no milestone carries an
`expedientes_principales` key with an empty list, consolidation returns
the context whose principal docket is the first docket identifier of the
last sorted milestone — the sentinel value when there are no milestones or
the last one lacks the key. (With a present-but-empty docket list the code
raises instead.) -/
theorem expediente_principal_derivado (hitos : List HitoCrudo)
    (idCaso : String) (h : ∀ x ∈ hitos, x.expedientes ≠ some []) :
    crear_contexto_del_caso_robusto hitos idCaso =
      some ⟨idCaso, principal_especificado (ordenar_hitos hitos),
        ordenar_hitos hitos⟩ := by
  rcases hlast : (ordenar_hitos hitos).getLast? with _ | ultimo
  · simp only [crear_contexto_del_caso_robusto, principal_especificado]
    rw [hlast]
  · have hmem : ultimo ∈ hitos := by
      have h1 : ultimo ∈ (ordenar_hitos hitos).getLast? := by
        rw [hlast]; rfl
      rcases List.mem_getLast?_eq_getLast h1 with ⟨hne, heq⟩
      have h2 := List.getLast_mem hne
      rw [← heq] at h2
      exact (List.perm_insertionSort _ hitos).mem_iff.mp h2
    obtain ⟨et, fe, ex⟩ := ultimo
    simp only [crear_contexto_del_caso_robusto, principal_especificado]
    rw [hlast]
    cases ex with
    | none => rfl
    | some l =>
      cases l with
      | nil =>
        exact absurd (rfl : (some [] : Option (List String)) = some [])
          (h _ hmem)
      | cons a as => rfl

/-- Witness for the amended C5, the example scenario of the design: two
milestones, stage ranks 3 and 5; the principal docket comes from the
rank-5 (most advanced) milestone. -/
theorem expediente_principal_witness :
    crear_contexto_del_caso_robusto
      [⟨some "Demanda de Amparo", some (2023, 3, 1), some ["AD 12/2023"]⟩,
       ⟨some "Recurso de Revisión", some (2023, 5, 1), some ["ADR 34/2023"]⟩]
      "34/2023" =
      some ⟨"34/2023",
        principal_especificado (ordenar_hitos
          [⟨some "Demanda de Amparo", some (2023, 3, 1), some ["AD 12/2023"]⟩,
           ⟨some "Recurso de Revisión", some (2023, 5, 1), some ["ADR 34/2023"]⟩]),
        ordenar_hitos
          [⟨some "Demanda de Amparo", some (2023, 3, 1), some ["AD 12/2023"]⟩,
           ⟨some "Recurso de Revisión", some (2023, 5, 1), some ["ADR 34/2023"]⟩]⟩ :=
  expediente_principal_derivado
    [⟨some "Demanda de Amparo", some (2023, 3, 1), some ["AD 12/2023"]⟩,
     ⟨some "Recurso de Revisión", some (2023, 5, 1), some ["ADR 34/2023"]⟩]
    "34/2023" (by decide)

/-! ## Support lemmas: truncating validators -/

theorem length_dropWhile_le_gen {α : Type} (p : α → Bool) (l : List α) :
    (l.dropWhile p).length ≤ l.length := by
  induction l with
  | nil => simp
  | cons a l ih =>
    rw [List.dropWhile_cons]
    split
    · exact Nat.le_succ_of_le ih
    · simp

theorem rsplit1Espacio_some_length (l antes cola : List Char)
    (h : rsplit1Espacio l = some (antes, cola)) : antes.length < l.length := by
  simp only [rsplit1Espacio] at h
  rcases hd : l.reverse.dropWhile (fun c => c ≠ ' ') with _ | ⟨x, rest⟩
  · rw [hd] at h; simp at h
  · rw [hd] at h
    simp only [Option.some.injEq, Prod.mk.injEq] at h
    obtain ⟨h1, _⟩ := h
    subst h1
    have hlen : (x :: rest).length ≤ l.reverse.length := by
      rw [← hd]; exact length_dropWhile_le_gen _ _
    simp at hlen ⊢
    omega

theorem truncarEnPalabra_length (corte : Nat) (v : List Char) :
    (truncarEnPalabra corte v).length ≤ corte + 3 := by
  unfold truncarEnPalabra
  rcases hr : rsplit1Espacio (v.take corte) with _ | ⟨antes, cola⟩
  · simp only [List.length_append, List.length_cons, List.length_nil]
    have := List.length_take_le corte v
    omega
  · have hb := rsplit1Espacio_some_length _ _ _ hr
    have := List.length_take_le corte v
    simp only [List.length_append, List.length_cons, List.length_nil]
    omega

theorem truncar_resumen_length (v : List Char) :
    (truncar_resumen v).length ≤ 200 := by
  unfold truncar_resumen
  split
  · assumption
  · have := truncarEnPalabra_length 197 v
    omega

theorem truncar_planteamiento_length (v : List Char) :
    (truncar_planteamiento v).length ≤ 280 := by
  unfold truncar_planteamiento
  split
  · assumption
  · have := truncarEnPalabra_length 277 v
    omega

/-! ## Claim C8: over-length fields are coerced, not failed -/

/-- Claim C8, counterexample. A 201-character summary violates the
200-character schema bound, yet validation succeeds — with a silently
altered value, not the original. -/
theorem validacion_sin_coercion_refutada :
    (validar_resumen (List.replicate 201 'a')).isOk = true ∧
    validar_resumen (List.replicate 201 'a') ≠
      Except.ok (List.replicate 201 'a') := by
  have hok : validar_resumen (List.replicate 201 'a') =
      Except.ok (truncar_resumen (List.replicate 201 'a')) := by
    unfold validar_resumen
    rw [if_pos (truncar_resumen_length _)]
  constructor
  · rw [hok]; rfl
  · rw [hok]
    intro heq
    have h2 := Except.ok.inj heq
    have h3 := truncar_resumen_length (List.replicate 201 'a')
    rw [h2] at h3
    simp at h3

/-- Claim C8, amended: over-length `resumen` and
`planteamiento_acto_reclamado` values are never a validation failure —
the mode=before validators silently truncate them at a word boundary with
an ellipsis so the result satisfies the length bound; values within the
bound pass through unchanged. -/
theorem validacion_trunca_en_silencio (v w : List Char) :
    validar_resumen v = Except.ok (truncar_resumen v) ∧
    (truncar_resumen v).length ≤ 200 ∧
    (v.length ≤ 200 → validar_resumen v = Except.ok v) ∧
    validar_planteamiento w = Except.ok (truncar_planteamiento w) ∧
    (truncar_planteamiento w).length ≤ 280 ∧
    (w.length ≤ 280 → validar_planteamiento w = Except.ok w) := by
  refine ⟨?_, truncar_resumen_length v, ?_, ?_, truncar_planteamiento_length w, ?_⟩
  · unfold validar_resumen
    rw [if_pos (truncar_resumen_length v)]
  · intro hv
    unfold validar_resumen truncar_resumen
    rw [if_pos hv, if_pos hv]
  · unfold validar_planteamiento
    rw [if_pos (truncar_planteamiento_length w)]
  · intro hw
    unfold validar_planteamiento truncar_planteamiento
    rw [if_pos hw, if_pos hw]

/-- Witness for the amended C8 at a concrete short summary. -/
theorem validacion_trunca_witness :
    validar_resumen ("resumen corto".toList) =
      Except.ok ("resumen corto".toList) :=
  (validacion_trunca_en_silencio ("resumen corto".toList) []).2.2.1 (by decide)

/-! ## Claim C9: checkpoint loading is total and defaulting -/

/-- Claim C9: loading the section checkpoint is a total function; a
missing (`none`) or unparseable (`some none`) file yields the fresh
checkpoint — state `iniciando`, no completed sections, no errors, zero
tokens — while a parsed checkpoint is returned with its state set to
`resumiendo` and everything else intact. -/
theorem carga_checkpoint_total (p : CheckpointSecciones) :
    cargar_checkpoint none = checkpoint_inicial ∧
    cargar_checkpoint (some none) = checkpoint_inicial ∧
    checkpoint_inicial.estado = "iniciando" ∧
    checkpoint_inicial.secciones_completadas = [] ∧
    checkpoint_inicial.errores = [] ∧
    checkpoint_inicial.tokens_totales = 0 ∧
    cargar_checkpoint (some (some p)) = { p with estado := "resumiendo" } :=
  ⟨rfl, rfl, rfl, rfl, rfl, rfl, rfl⟩

/-! ## Claim C10: the checkpoint token-sum invariant -/

/-- Claim C10: every checkpoint state reachable from the fresh checkpoint
through the pipeline's two update operations (record a completed section —
always guarded by its name being new — and record a failure) has
`tokens_totales` equal to the sum of the `tokens` fields over
`secciones_completadas`. -/
theorem invariante_tokens_checkpoint (p : CheckpointSecciones)
    (h : CheckpointAlcanzable p) :
    p.tokens_totales =
      (p.secciones_completadas.map (fun kv => kv.2.tokens)).sum := by
  induction h with
  | inicial => rfl
  | exito q nombre archivo tokens hnuevo hq ih =>
    simp [registrar_seccion_completada, asignarClave, hnuevo, ih]
  | fallo q seccion err hq ih =>
    simpa [registrar_error_seccion] using ih

/-- Witness for C10 at a concrete reachable state (one success worth 7
tokens, then one failure). -/
theorem invariante_tokens_witness :
    (registrar_error_seccion
      (registrar_seccion_completada checkpoint_inicial "antecedentes"
        "seccion_antecedentes" 7) "formalidades" "timeout").tokens_totales =
      ((registrar_error_seccion
        (registrar_seccion_completada checkpoint_inicial "antecedentes"
          "seccion_antecedentes" 7) "formalidades"
        "timeout").secciones_completadas.map (fun kv => kv.2.tokens)).sum :=
  invariante_tokens_checkpoint _
    (CheckpointAlcanzable.fallo _ "formalidades" "timeout"
      (CheckpointAlcanzable.exito checkpoint_inicial "antecedentes"
        "seccion_antecedentes" 7 rfl CheckpointAlcanzable.inicial))

/-! ## Support lemmas: section pipeline -/

theorem lookup_isSome_iff_mem_keys (m : List (String × SeccionCompletada))
    (k : String) :
    (m.lookup k).isSome = true ↔ k ∈ m.map Prod.fst := by
  induction m with
  | nil => simp
  | cons kv m ih =>
    rcases kv with ⟨k1, v1⟩
    rw [List.lookup_cons]
    by_cases he : k = k1
    · subst he; simp
    · have hbeq : (k == k1) = false := by simp [he]
      rw [hbeq]
      simp [ih, he]

theorem lookup_none_of_not_isSome (m : List (String × SeccionCompletada))
    (k : String) (h : ¬ (m.lookup k).isSome = true) : m.lookup k = none := by
  cases hl : m.lookup k
  · rfl
  · rw [hl] at h; simp at h

theorem asignarClave_of_lookup_none (m : List (String × SeccionCompletada))
    (k : String) (v : SeccionCompletada) (h : m.lookup k = none) :
    asignarClave m k v = m ++ [(k, v)] := by
  unfold asignarClave
  rw [h]
  rfl

theorem lookup_append_none (m1 m2 : List (String × SeccionCompletada))
    (k : String) (h : m1.lookup k = none) :
    (m1 ++ m2).lookup k = m2.lookup k := by
  induction m1 with
  | nil => simp
  | cons kv m ih =>
    rcases kv with ⟨k1, v1⟩
    rw [List.lookup_cons] at h
    rw [List.cons_append, List.lookup_cons]
    rcases hbeq : (k == k1) with _ | _
    · rw [hbeq] at h
      exact ih h
    · rw [hbeq] at h
      simp at h

theorem procesar_seccion_estado (gen : String → Except String Nat)
    (p : CheckpointSecciones) (n : String) :
    (procesar_seccion gen p n).estado = p.estado := by
  unfold procesar_seccion
  split
  · rfl
  · rcases gen n with e | t <;> rfl

theorem correr_pipeline_cons (gen : String → Except String Nat)
    (p : CheckpointSecciones) (n : String) (ns : List String) :
    correr_pipeline gen p (n :: ns) =
      correr_pipeline gen (procesar_seccion gen p n) ns := rfl

theorem correr_pipeline_estado (gen : String → Except String Nat)
    (ns : List String) :
    ∀ p, (correr_pipeline gen p ns).estado = p.estado := by
  induction ns with
  | nil => intro p; rfl
  | cons n ns ih =>
    intro p
    rw [correr_pipeline_cons, ih, procesar_seccion_estado]

theorem procesar_seccion_keys_mono (gen : String → Except String Nat)
    (p : CheckpointSecciones) (n k : String)
    (h : k ∈ p.secciones_completadas.map Prod.fst) :
    k ∈ (procesar_seccion gen p n).secciones_completadas.map Prod.fst := by
  unfold procesar_seccion
  split
  · exact h
  · rename_i hguard
    have hnone := lookup_none_of_not_isSome _ _ hguard
    rcases gen n with e | t
    · exact h
    · simp only [registrar_seccion_completada,
        asignarClave_of_lookup_none _ _ _ hnone, List.map_append]
      exact List.mem_append_left _ h

theorem correr_pipeline_keys_mono (gen : String → Except String Nat)
    (ns : List String) :
    ∀ p k, k ∈ p.secciones_completadas.map Prod.fst →
      k ∈ (correr_pipeline gen p ns).secciones_completadas.map Prod.fst := by
  induction ns with
  | nil => intro p k h; exact h
  | cons n ns ih =>
    intro p k h
    exact ih _ k (procesar_seccion_keys_mono gen p n k h)

theorem procesar_seccion_errores_mono (gen : String → Except String Nat)
    (p : CheckpointSecciones) (n : String) (x : String × String)
    (h : x ∈ p.errores) : x ∈ (procesar_seccion gen p n).errores := by
  unfold procesar_seccion
  split
  · exact h
  · rcases gen n with e | t
    · simp [registrar_error_seccion, h]
    · exact h

theorem correr_pipeline_errores_mono (gen : String → Except String Nat)
    (ns : List String) :
    ∀ p x, x ∈ p.errores → x ∈ (correr_pipeline gen p ns).errores := by
  induction ns with
  | nil => intro p x h; exact h
  | cons n ns ih =>
    intro p x h
    exact ih _ x (procesar_seccion_errores_mono gen p n x h)

theorem lookup_procesar_ne (gen : String → Except String Nat)
    (p : CheckpointSecciones) (m n : String) (hne : n ≠ m)
    (h : p.secciones_completadas.lookup n = none) :
    (procesar_seccion gen p m).secciones_completadas.lookup n = none := by
  unfold procesar_seccion
  split
  · exact h
  · rename_i hguard
    have hm := lookup_none_of_not_isSome _ _ hguard
    rcases gen m with e | t
    · exact h
    · simp only [registrar_seccion_completada,
        asignarClave_of_lookup_none _ _ _ hm]
      rw [lookup_append_none _ _ _ h, List.lookup_cons]
      have hbeq : (n == m) = false := by simp [hne]
      rw [hbeq]
      rfl

theorem error_registrado (gen : String → Except String Nat)
    (ns : List String) :
    ∀ p n e, n ∈ ns → gen n = Except.error e →
      p.secciones_completadas.lookup n = none →
      (n, e) ∈ (correr_pipeline gen p ns).errores := by
  induction ns with
  | nil => intro p n e h; simp at h
  | cons m ns ih =>
    intro p n e hmem hgen hnone
    rw [correr_pipeline_cons]
    by_cases heq : n = m
    · subst heq
      apply correr_pipeline_errores_mono
      simp [procesar_seccion, hnone, hgen, registrar_error_seccion]
    · rcases List.mem_cons.mp hmem with h1 | h1
      · exact absurd h1 heq
      · exact ih _ n e h1 hgen (lookup_procesar_ne gen p m n heq hnone)

theorem exito_completado (gen : String → Except String Nat)
    (ns : List String) :
    ∀ p n t, n ∈ ns → gen n = Except.ok t →
      n ∈ (correr_pipeline gen p ns).secciones_completadas.map Prod.fst := by
  induction ns with
  | nil => intro p n t h; simp at h
  | cons m ns ih =>
    intro p n t hmem hgen
    rw [correr_pipeline_cons]
    by_cases heq : n = m
    · subst heq
      apply correr_pipeline_keys_mono
      unfold procesar_seccion
      split
      · rename_i hguard
        exact (lookup_isSome_iff_mem_keys _ n).mp hguard
      · rename_i hguard
        have hnone := lookup_none_of_not_isSome _ _ hguard
        rw [hgen]
        simp [registrar_seccion_completada,
          asignarClave_of_lookup_none _ _ _ hnone]
    · rcases List.mem_cons.mp hmem with h1 | h1
      · exact absurd h1 heq
      · exact ih _ n t h1 hgen

theorem procesar_seccion_keys_invariante (gen : String → Except String Nat)
    (p : CheckpointSecciones) (m : String) (secciones : List String)
    (hm : m ∈ secciones)
    (h1 : ∀ k ∈ p.secciones_completadas.map Prod.fst, k ∈ secciones)
    (h2 : (p.secciones_completadas.map Prod.fst).Nodup) :
    (∀ k ∈ (procesar_seccion gen p m).secciones_completadas.map Prod.fst,
      k ∈ secciones) ∧
    ((procesar_seccion gen p m).secciones_completadas.map Prod.fst).Nodup := by
  unfold procesar_seccion
  split
  · exact ⟨h1, h2⟩
  · rename_i hguard
    have hnone := lookup_none_of_not_isSome _ _ hguard
    have hnmem : m ∉ p.secciones_completadas.map Prod.fst := by
      rw [← lookup_isSome_iff_mem_keys]
      simp [hnone]
    rcases gen m with e | t
    · exact ⟨h1, h2⟩
    · constructor
      · intro k hk
        simp only [registrar_seccion_completada,
          asignarClave_of_lookup_none _ _ _ hnone, List.map_append,
          List.mem_append] at hk
        rcases hk with hk | hk
        · exact h1 k hk
        · simp at hk; subst hk; exact hm
      · simp only [registrar_seccion_completada,
          asignarClave_of_lookup_none _ _ _ hnone, List.map_append]
        rw [List.nodup_append]
        refine ⟨h2, by simp, ?_⟩
        intro x hx hx2
        simp at hx2
        subst hx2
        exact hnmem hx

theorem correr_pipeline_keys_invariante (gen : String → Except String Nat)
    (secciones : List String) (ns : List String)
    (hsub : ∀ x ∈ ns, x ∈ secciones) :
    ∀ p, (∀ k ∈ p.secciones_completadas.map Prod.fst, k ∈ secciones) →
      (p.secciones_completadas.map Prod.fst).Nodup →
      (∀ k ∈ (correr_pipeline gen p ns).secciones_completadas.map Prod.fst,
        k ∈ secciones) ∧
      ((correr_pipeline gen p ns).secciones_completadas.map Prod.fst).Nodup := by
  induction ns with
  | nil => intro p h1 h2; exact ⟨h1, h2⟩
  | cons m ns ih =>
    intro p h1 h2
    rw [correr_pipeline_cons]
    have hstep := procesar_seccion_keys_invariante gen p m secciones
      (hsub m (by simp)) h1 h2
    exact ih (fun x hx => hsub x (by simp [hx])) _ hstep.1 hstep.2

theorem finalizar_estado_iff (existe : String → Bool)
    (secciones : List String) (q : CheckpointSecciones)
    (hnodup : secciones.Nodup) (hne : secciones ≠ [])
    (hq1 : ∀ k ∈ q.secciones_completadas.map Prod.fst, k ∈ secciones)
    (hq2 : (q.secciones_completadas.map Prod.fst).Nodup)
    (hex : ∀ kv ∈ q.secciones_completadas, existe kv.2.archivo = true)
    (hestq : q.estado = "iniciando" ∨ q.estado = "resumiendo") :
    ((finalizar_documento existe secciones q).estado = "documento_generado" ↔
      ∀ n ∈ secciones, n ∈ q.secciones_completadas.map Prod.fst) ∧
    (q.secciones_completadas ≠ [] →
      (finalizar_documento existe secciones q).estado = "documento_generado" ∨
      (finalizar_documento existe secciones q).estado = "documento_parcial") ∧
    (q.secciones_completadas = [] →
      (finalizar_documento existe secciones q).estado = q.estado) := by
  by_cases hvac : q.secciones_completadas = []
  · have hfin : finalizar_documento existe secciones q = q := by
      unfold finalizar_documento
      rw [if_pos (by simp [List.isEmpty_iff, hvac])]
    refine ⟨?_, fun hn => absurd hvac hn, fun _ => by rw [hfin]⟩
    rw [hfin]
    constructor
    · intro hgen
      exfalso
      rcases hestq with he | he <;> rw [he] at hgen <;> simp at hgen
    · intro hall
      exfalso
      rcases List.exists_mem_of_ne_nil secciones hne with ⟨n0, hn0⟩
      have h0 := hall n0 hn0
      rw [hvac] at h0
      simp at h0
  · have hfilter : q.secciones_completadas.filter
        (fun kv => existe kv.2.archivo) = q.secciones_completadas :=
      List.filter_eq_self.mpr hex
    have hfin : (finalizar_documento existe secciones q).estado =
        if q.secciones_completadas.length = secciones.length
        then "documento_generado" else "documento_parcial" := by
      simp only [finalizar_documento]
      rw [if_neg (by simp [List.isEmpty_iff, hvac])]
      rw [hfilter]
    refine ⟨?_, fun _ => ?_, fun he => absurd he hvac⟩
    · rw [hfin]
      by_cases hlen : q.secciones_completadas.length = secciones.length
      · rw [if_pos hlen]
        constructor
        · intro _
          have hkeylen : (q.secciones_completadas.map Prod.fst).length =
              secciones.length := by
            rw [List.length_map]; exact hlen
          have hsubF : (q.secciones_completadas.map Prod.fst).toFinset ⊆
              secciones.toFinset := by
            intro x hx
            rw [List.mem_toFinset] at hx ⊢
            exact hq1 x hx
          have heqF := Finset.eq_of_subset_of_card_le hsubF
            (by rw [List.toFinset_card_of_nodup hq2,
              List.toFinset_card_of_nodup hnodup, hkeylen])
          intro n hn
          have h2 : n ∈ secciones.toFinset := List.mem_toFinset.mpr hn
          rw [← heqF] at h2
          exact List.mem_toFinset.mp h2
        · intro _; rfl
      · rw [if_neg hlen]
        constructor
        · intro hcontra
          exact absurd hcontra (by decide)
        · intro hall
          exfalso
          apply hlen
          have hsubF1 : (q.secciones_completadas.map Prod.fst).toFinset ⊆
              secciones.toFinset := by
            intro x hx
            rw [List.mem_toFinset] at hx ⊢
            exact hq1 x hx
          have hsubF2 : secciones.toFinset ⊆
              (q.secciones_completadas.map Prod.fst).toFinset := by
            intro x hx
            rw [List.mem_toFinset] at hx ⊢
            exact hall x hx
          have heqF := Finset.Subset.antisymm hsubF1 hsubF2
          have hcards := congrArg Finset.card heqF
          rw [List.toFinset_card_of_nodup hq2,
            List.toFinset_card_of_nodup hnodup, List.length_map] at hcards
          exact hcards
    · rw [hfin]
      split
      · left; rfl
      · right; rfl

/-! ## Claim C7: section pipeline partial tolerance -/

/-- Claim C7, counterexample. When every section fails, the final state is
neither `documento_generado` nor `documento_parcial`: the assembly step is
skipped entirely (no completed section), so the checkpoint keeps its
initial state `iniciando` even though not every section completed. -/
theorem tolerancia_parcial_refutada :
    (generar_secciones_proyecto (fun _ => Except.error "fallo de servicio")
      (fun _ => true) pipeline_secciones checkpoint_inicial).estado =
      "iniciando" ∧
    ¬ (∀ n ∈ pipeline_secciones,
        n ∈ (correr_pipeline (fun _ => Except.error "fallo de servicio")
          checkpoint_inicial pipeline_secciones).secciones_completadas.map
            Prod.fst) := by
  constructor
  · decide
  · decide

/-- Claim C7, amended: every section the generator fails on (and that was
not already completed) gets an error record appended while the loop
continues — sections whose generation succeeds are completed regardless of
other failures; and, provided every completed artifact file still exists
and the loaded checkpoint only lists pipeline sections (each once), the
final state is `documento_generado` iff every pipeline section is
completed, `documento_parcial` otherwise — except that when no section at
all is completed the checkpoint keeps its prior state instead of being
marked `documento_parcial`. -/
theorem tolerancia_parcial_secciones (gen : String → Except String Nat)
    (existe : String → Bool) (p0 : CheckpointSecciones)
    (secciones : List String)
    (hnodup : secciones.Nodup) (hne : secciones ≠ [])
    (hest : p0.estado = "iniciando" ∨ p0.estado = "resumiendo")
    (hk0 : ∀ k ∈ p0.secciones_completadas.map Prod.fst, k ∈ secciones)
    (hk0nd : (p0.secciones_completadas.map Prod.fst).Nodup)
    (hex : ∀ kv ∈ (correr_pipeline gen p0 secciones).secciones_completadas,
      existe kv.2.archivo = true) :
    (∀ n ∈ secciones, ∀ e, gen n = Except.error e →
      p0.secciones_completadas.lookup n = none →
      (n, e) ∈ (correr_pipeline gen p0 secciones).errores) ∧
    (∀ n ∈ secciones, ∀ t, gen n = Except.ok t →
      n ∈ (correr_pipeline gen p0 secciones).secciones_completadas.map
        Prod.fst) ∧
    ((generar_secciones_proyecto gen existe secciones p0).estado =
        "documento_generado" ↔
      ∀ n ∈ secciones,
        n ∈ (correr_pipeline gen p0 secciones).secciones_completadas.map
          Prod.fst) ∧
    ((correr_pipeline gen p0 secciones).secciones_completadas ≠ [] →
      (generar_secciones_proyecto gen existe secciones p0).estado =
        "documento_generado" ∨
      (generar_secciones_proyecto gen existe secciones p0).estado =
        "documento_parcial") ∧
    ((correr_pipeline gen p0 secciones).secciones_completadas = [] →
      (generar_secciones_proyecto gen existe secciones p0).estado =
        p0.estado) := by
  have hinv := correr_pipeline_keys_invariante gen secciones secciones
    (fun x hx => hx) p0 hk0 hk0nd
  have hestq : (correr_pipeline gen p0 secciones).estado = "iniciando" ∨
      (correr_pipeline gen p0 secciones).estado = "resumiendo" := by
    rw [correr_pipeline_estado]; exact hest
  have hfin := finalizar_estado_iff existe secciones _ hnodup hne hinv.1
    hinv.2 hex hestq
  refine ⟨?_, ?_, hfin.1, hfin.2.1, ?_⟩
  · intro n hn e hgen hnone
    exact error_registrado gen secciones p0 n e hn hgen hnone
  · intro n hn t hgen
    exact exito_completado gen secciones p0 n t hn hgen
  · intro hemp
    have h1 := hfin.2.2 hemp
    rw [correr_pipeline_estado] at h1
    exact h1

/-- Witness for the amended C7: every section succeeds, the final state is
`documento_generado`. -/
theorem tolerancia_parcial_witness :
    (generar_secciones_proyecto (fun _ => Except.ok 3) (fun _ => true)
      pipeline_secciones checkpoint_inicial).estado = "documento_generado" :=
  ((tolerancia_parcial_secciones (fun _ => Except.ok 3) (fun _ => true)
    checkpoint_inicial pipeline_secciones (by decide) (by decide)
    (Or.inl rfl) (by decide) (by decide) (by decide)).2.2.1).mpr (by decide)

end SCJN
